import Mathlib

/-!
Verification of the supercoop data-analysis pipeline.

This file gives a shallow embedding of the analytical core of the
repository: the cohort retention analysis (`src/analysis/cohort.py`),
the RFM segmentation (`src/analysis/rfm.py`), the products-table
construction (`src/data/dataframes.py`) and the derived features
(`src/data/features.py`).  Dataframes are embedded as lists of row
structures; timestamps are integers (an abstract linear time axis, e.g.
days since an epoch); float columns that can hold NaN are `Option ℚ`.

The pandas granularity conversion `Series.dt.to_period(freq)` is
embedded as an abstract map `p : Int → Int` sending a timestamp to the
ordinal of its containing period (for the cohort analysis) or to the
start timestamp of its containing period (for the RFM analysis).  The
theorems assume only the properties such a conversion has: monotonicity,
and (for period starts) that the start of the period containing `d` is
at most `d`.
-/

namespace Scoop

/-- One row of the members dataframe as consumed by the analyzers:
the columns `member_ID`, `delivery_date` and `order_request_value`
(the only columns `cohort.py` and `rfm.py` read). -/
structure MemberRow where
  member_ID : Int
  delivery_date : Int
  order_request_value : ℚ
deriving DecidableEq, Repr

/-! ### Fold-based min / max over nonempty lists, with the lemmas the
pivot proofs need. -/

/-- Minimum of a list of timestamps, `0` for the empty list
(the empty case is never reached on the paths the theorems take). -/
def minDate (l : List Int) : Int :=
  match l with
  | [] => 0
  | d :: ds => ds.foldl min d

/-- Maximum of a list of timestamps, `0` for the empty list. -/
def maxDate (l : List Int) : Int :=
  match l with
  | [] => 0
  | d :: ds => ds.foldl max d

/-! ### Cohort analysis (`src/analysis/cohort.py`)

`make_retention_matrix` selects `member_ID` and `delivery_date`, adds
`delivery_freq = delivery_date.dt.to_period(freq)` and
`cohort = groupby(member_ID).delivery_date.transform(min).dt.to_period(freq)`,
counts distinct members per `(cohort, delivery_freq)` group, sets
`period_number` to the ordinal difference of the two periods, pivots
(index `cohort`, columns `period_number`, values the counts) and divides
each row by its first column (`iloc[:, 0]`).

The period map `p` sends a timestamp to its period ordinal, so the
ordinal difference `(delivery_freq - cohort).n` is `p d - p c`.
A pivot is embedded as a function to `Option` (`none` = the cell is
absent/NaN) together with the list of row labels present. -/

/-- Embedding of `groupby(member_ID).delivery_date.transform(min)` for the member
owning row `r`:  the earliest delivery date among the member's rows. -/
def minDateOf (df : List MemberRow) (mid : Int) : Int :=
  minDate ((df.filter (fun r => r.member_ID = mid)).map (fun r => r.delivery_date))

/-- The `cohort` column of a row: period of the member's first delivery. -/
def cohortOf (p : Int → Int) (df : List MemberRow) (r : MemberRow) : Int :=
  p (minDateOf df r.member_ID)

/-- The `delivery_freq` column of a row: period of its delivery date. -/
def dfreqOf (p : Int → Int) (r : MemberRow) : Int :=
  p r.delivery_date

/-- Embedding of `agg(n_members=(member_ID, nunique))` for the
`(cohort, delivery_freq)` group `(c, f)`: number of distinct members
having a row in that group. -/
def nMembers (p : Int → Int) (df : List MemberRow) (c f : Int) : Nat :=
  (((df.filter (fun r => cohortOf p df r = c ∧ dfreqOf p r = f)).map
    (fun r => r.member_ID)).dedup).length

/-- The distinct `period_number` values of the aggregated table
(the column labels of the pivot). -/
def periodNumbers (p : Int → Int) (df : List MemberRow) : List Int :=
  ((df.map (fun r => dfreqOf p r - cohortOf p df r)).dedup)

/-- The leftmost column label of the pivot (`iloc[:, 0]` selects the
column with the smallest `period_number`). -/
def minPeriodNumber (p : Int → Int) (df : List MemberRow) : Int :=
  minDate (periodNumbers p df)

/-- The cohort pivot: cell `(c, n)` is the distinct-member count of the
group `(c, c + n)`, absent (NaN) when the group has no rows. -/
def cohortPivot (p : Int → Int) (df : List MemberRow) (c n : Int) : Option Nat :=
  if nMembers p df c (c + n) = 0 then none else some (nMembers p df c (c + n))

/-- Embedding of `cohort_size = cohort_pivot.iloc[:, 0]`. -/
def cohortSize (p : Int → Int) (df : List MemberRow) (c : Int) : Option Nat :=
  cohortPivot p df c (minPeriodNumber p df)

/-- Embedding of `retention_matrix = cohort_pivot.div(cohort_size, axis=0)`:
cellwise division, NaN whenever either operand is NaN. -/
def retentionMatrix (p : Int → Int) (df : List MemberRow) (c n : Int) : Option ℚ :=
  match cohortPivot p df c n with
  | none => none
  | some a =>
    match cohortSize p df c with
    | none => none
    | some b => some ((a : ℚ) / (b : ℚ))

/-- The row labels of the pivot: the distinct cohort values. -/
def cohortsOf (p : Int → Int) (df : List MemberRow) : List Int :=
  ((df.map (cohortOf p df)).dedup)

/-- The company-account exclusion
`df_members.loc[df_members.member_ID != 46]`. -/
def dropCompany (df : List MemberRow) : List MemberRow :=
  df.filter (fun r => r.member_ID ≠ 46)

/-- Embedding of `cohort.main`: rejects a granularity outside month/quarter by
returning `none` (the Python function prints and returns `None`),
otherwise drops the company account `member_ID 46` and builds the
retention matrix and pivot from the remaining rows. -/
def cohort_main (freq : String) (p : Int → Int) (df : List MemberRow) :
    Option ((Int → Int → Option ℚ) × (Int → Int → Option Nat) × List Int) :=
  if freq = "M" ∨ freq = "Q" then
    some (retentionMatrix p (dropCompany df), cohortPivot p (dropCompany df),
          cohortsOf p (dropCompany df))
  else none

/-! ### RFM analysis (`src/analysis/rfm.py`)

`make_table` drops the company account, buckets `delivery_date` into
period-start timestamps (`to_period(freq).to_timestamp()`), sums
`order_request_value` per `(period, member_ID)`, then aggregates per
member: latest period, count of active periods (`frequency`) and the
mean of the per-period sums (`monetary_value`).  `recency` is the floor
division of `period_end - latest period` by the numpy period length
(`np.timedelta64(1, 'W')` = 7 days, `np.timedelta64(1, 'M')` =
2629746 s = 30.436875 days), where `period_end` is the maximum raw
`delivery_date`.  `add_score` bins recency with `pd.cut` over fixed
edges `[0, 0.25, 0.5, 1, inf] * periods_per_year` (labels 4..1,
`include_lowest=True`) and frequency / monetary value with `pd.qcut`
into quartiles (labels 1..4); `pd.qcut` raises on duplicate bin edges,
which the embedding reports as `none` / `binError`. -/

/-- One row of the aggregated RFM table. -/
structure RfmRow where
  member_ID : Int
  recency : Int
  frequency : Nat
  monetary_value : ℚ
deriving DecidableEq, Repr

/-- The numpy `freq_timedeltas` lengths, in days. -/
def periodLen : String → ℚ
  | "W" => 7
  | "M" => 2629746 / 86400
  | "Q" => 3 * (2629746 / 86400)
  | _ => 1

/-- The distinct period-start timestamps in which member `m` is active
(the rows of the `(period, member)` groupby that belong to `m`). -/
def periodsOf (p : Int → Int) (d : List MemberRow) (m : Int) : List Int :=
  (((d.filter (fun r => r.member_ID = m)).map (fun r => p r.delivery_date)).dedup)

/-- The raw delivery dates of the rows of member `m`. -/
def memberDates (d : List MemberRow) (m : Int) : List Int :=
  (d.filter (fun r => r.member_ID = m)).map (fun r => r.delivery_date)

/-- Sum of `order_request_value` over the rows of member `m` in period `per`. -/
def periodSum (p : Int → Int) (d : List MemberRow) (m : Int) (per : Int) : ℚ :=
  (((d.filter (fun r => r.member_ID = m ∧ p r.delivery_date = per)).map
    (fun r => r.order_request_value)).sum)

/-- Embedding of `rfm.make_table`: one row per distinct member of the filtered table. -/
def make_table (p : Int → Int) (freq : String) (df : List MemberRow) : List RfmRow :=
  (((dropCompany df).map (fun r => r.member_ID)).dedup).map (fun m =>
    { member_ID := m
      recency := Int.floor
        (((maxDate ((dropCompany df).map (fun r => r.delivery_date)) : ℚ)
          - (maxDate (periodsOf p (dropCompany df) m) : ℚ)) / periodLen freq)
      frequency := (periodsOf p (dropCompany df) m).length
      monetary_value :=
        ((periodsOf p (dropCompany df) m).map (periodSum p (dropCompany df) m)).sum
          / (((periodsOf p (dropCompany df) m).map
            (periodSum p (dropCompany df) m)).length : ℚ) })

/-- The `freqs` dictionary of `add_score`: periods per year. -/
def freqsPerYear : String → ℚ
  | "W" => 52
  | "M" => 12
  | "Q" => 4
  | _ => 0

/-- The scaled recency bin edges `[x * freqs[freq] for x in r_range]`
with `r_range = [0, 0.25, 0.5, 1, np.inf]`. -/
def rEdges (freq : String) : List (WithTop ℚ) :=
  ([(0 : WithTop ℚ), (((1 : ℚ) / 4 : ℚ) : WithTop ℚ), (((1 : ℚ) / 2 : ℚ) : WithTop ℚ),
    ((1 : ℚ) : WithTop ℚ), ⊤]).map
    (fun x => x * ((freqsPerYear freq : ℚ) : WithTop ℚ))

/-- Scan of the upper bin edges: the first index `i` (counted from the
start value) whose edge is at least `x`. -/
def cutGo (x : WithTop ℚ) : List (WithTop ℚ) → Nat → Option Nat
  | [], _ => none
  | e :: es, i => if x ≤ e then some i else cutGo x es (i + 1)

/-- Embedding of `pd.cut` with `include_lowest=True`: bin `i` is the right-closed
interval from `edges[i]` to `edges[i+1]` (the lowest edge included);
values outside all bins get NaN (`none`). -/
def cutIdx (edges : List (WithTop ℚ)) (x : ℚ) : Option Nat :=
  match edges with
  | [] => none
  | e0 :: rest => if (x : WithTop ℚ) < e0 then none else cutGo (x : WithTop ℚ) rest 0

/-- Recency score: `pd.cut(recency, bins=r_range, labels=[4, 3, 2, 1],
include_lowest=True)`. -/
def rScore (freq : String) (x : ℚ) : Option Nat :=
  (cutIdx (rEdges freq) x).bind (fun i => ([4, 3, 2, 1] : List Nat)[i]?)

/-- Ascending sort of the sample, as used by the quantile computation. -/
def sortQ (xs : List ℚ) : List ℚ :=
  List.insertionSort (fun a b => a ≤ b) xs

/-- Linear-interpolation quantile of the sorted sample `v` at
probability `k/4` (numpy's default interpolation, which `pd.qcut`
uses to place the bin edges). -/
def qtile (v : List ℚ) (k : Nat) : ℚ :=
  let pos : ℚ := (k : ℚ) / 4 * ((v.length : ℚ) - 1)
  let i : Nat := Int.toNat (Int.floor pos)
  let lo := v.getD i 0
  let hi := v.getD (i + 1) lo
  lo + (pos - (i : ℚ)) * (hi - lo)

/-- The quartile bin edges `pd.qcut(xs, 4)` computes: quantiles of the
sample at probabilities 0, 1/4, 1/2, 3/4, 1. -/
def qcutEdges (xs : List ℚ) : List ℚ :=
  [qtile (sortQ xs) 0, qtile (sortQ xs) 1, qtile (sortQ xs) 2,
   qtile (sortQ xs) 3, qtile (sortQ xs) 4]

/-- Quartile label of `x` within sample `xs`:
`pd.qcut(xs, 4, labels=range(1, 5))` (lowest quartile 1, highest 4). -/
def qLabel (xs : List ℚ) (x : ℚ) : Option Nat :=
  (cutIdx ((qcutEdges xs).map (fun e : ℚ => (e : WithTop ℚ))) x).bind
    (fun i => ([1, 2, 3, 4] : List Nat)[i]?)

/-- Embedding of `astype(str)` on a categorical score label: NaN renders as the string nan. -/
def scoreStr : Option Nat → String
  | none => "nan"
  | some k => toString k

/-- A row of the scored RFM table (`add_score` adds the four columns). -/
structure ScoredRow extends RfmRow where
  r_score : Option Nat
  f_score : Option Nat
  m_score : Option Nat
  rfm_score : String
deriving DecidableEq, Repr

/-- Scoring of one row against the whole table's distributions. -/
def scoreRow (freq : String) (t : List RfmRow) (r : RfmRow) : ScoredRow :=
  { toRfmRow := r
    r_score := rScore freq (r.recency : ℚ)
    f_score := qLabel (t.map (fun x => (x.frequency : ℚ))) (r.frequency : ℚ)
    m_score := qLabel (t.map (fun x => x.monetary_value)) r.monetary_value
    rfm_score := scoreStr (rScore freq (r.recency : ℚ))
      ++ scoreStr (qLabel (t.map (fun x => (x.frequency : ℚ))) (r.frequency : ℚ))
      ++ scoreStr (qLabel (t.map (fun x => x.monetary_value)) r.monetary_value) }

/-- Embedding of `rfm.add_score`: fails (pandas `ValueError`) when either `pd.qcut`
produces duplicate bin edges, otherwise scores every row. -/
def add_score (freq : String) (t : List RfmRow) : Option (List ScoredRow) :=
  if (qcutEdges (t.map (fun r => (r.frequency : ℚ)))).dedup.length = 5 ∧
      (qcutEdges (t.map (fun r => r.monetary_value))).dedup.length = 5 then
    some (t.map (fun r => scoreRow freq t r))
  else none

/-- Outcome of `rfm.main`: an invalid granularity returns `None`
before computing; a binning failure raises; otherwise the scored
table is returned. -/
inductive RfmResult where
  | invalidFreq
  | binError
  | ok (table : List ScoredRow)
deriving DecidableEq, Repr

/-- Embedding of `rfm.main`: granularity check, `make_table`, `add_score`. -/
def rfm_main (freq : String) (p : Int → Int) (df : List MemberRow) : RfmResult :=
  if freq = "W" ∨ freq = "M" then
    match add_score freq (make_table p freq df) with
    | some t => RfmResult.ok t
    | none => RfmResult.binError
  else RfmResult.invalidFreq

/-! ### Products table construction (`src/data/dataframes.py`)

`make_df_products` explodes the nested products dicts, then, on the six
columns of `float_cols`, replaces `,` by `.` and the empty string by
NaN, and finally casts with
`astype` mapping of tax_rate, net_price, bundle_size, amount_ordered
and bundles_ordered to float
— note that `supplier_code` is in `float_cols` but absent from the
`astype` mapping.  A dataframe cell is embedded as a `Cell`; a failing
float cast (unparseable string) makes the builder fail (`none`). -/

/-- A pandas object-column cell: missing, a string, or a float. -/
inductive Cell where
  | na
  | str (s : String)
  | num (q : ℚ)
deriving DecidableEq, Repr

/-- One raw product record: the decimal-comma string fields of the
nested JSON, keyed by `(order_ID, product_ID)`. -/
structure RawProduct where
  order_ID : Int
  product_ID : Int
  tax_rate : String
  net_price : String
  bundle_size : String
  supplier_code : String
  amount_ordered : String
  bundles_ordered : String
deriving DecidableEq, Repr

/-- Embedding of `df.replace(',', '.', regex=True)` on a string cell: every comma
becomes a dot (character-wise, since the pattern is one character). -/
def commaToDot (s : String) : String :=
  String.mk (s.toList.map (fun c => if c = ',' then '.' else c))

/-- Value of a digit string (most significant digit first). -/
def digitsToNat (cs : List Char) : Nat :=
  cs.foldl (fun a c => 10 * a + (c.toNat - 48)) 0

/-- Parse of an unsigned decimal string (Python `float()` on the
decimal strings appearing in the data: digits with an optional
fraction part). -/
def parseUnsigned (cs : List Char) : Option ℚ :=
  match cs.splitOn '.' with
  | [ip] =>
    if ip ≠ [] ∧ ip.all (fun c => c.isDigit) then some ((digitsToNat ip : ℚ))
    else none
  | [ip, fp] =>
    if (ip ≠ [] ∨ fp ≠ []) ∧ ip.all (fun c => c.isDigit) ∧ fp.all (fun c => c.isDigit) then
      some ((digitsToNat ip : ℚ) + (digitsToNat fp : ℚ) / (10 : ℚ) ^ fp.length)
    else none
  | _ => none

/-- Parse of a decimal string with an optional sign (`astype(float)`
on one cell). -/
def parseDec (s : String) : Option ℚ :=
  match s.toList with
  | '-' :: rest => (parseUnsigned rest).map (fun q => -q)
  | '+' :: rest => parseUnsigned rest
  | cs => parseUnsigned cs

/-- The two string replacements applied to every `float_cols` cell:
`,` becomes `.`, and an empty result is missing. -/
def procStr (s : String) : Cell :=
  if commaToDot s = "" then Cell.na else Cell.str (commaToDot s)

/-- Embedding of `astype(float)` on one cell: NaN stays NaN, a string must parse. -/
def castFloat : Cell → Option Cell
  | Cell.na => some Cell.na
  | Cell.str s => (parseDec s).map Cell.num
  | Cell.num q => some (Cell.num q)

/-- One row of the processed products table (cells of the six
`float_cols` columns). -/
structure ProductCells where
  order_ID : Int
  product_ID : Int
  tax_rate : Cell
  net_price : Cell
  bundle_size : Cell
  supplier_code : Cell
  amount_ordered : Cell
  bundles_ordered : Cell
deriving DecidableEq, Repr

/-- Processing of one product row: all six fields get the string
replacements, and all of them except `supplier_code` are cast to
float (the `astype` dict omits `supplier_code`). -/
def buildProduct (r : RawProduct) : Option ProductCells :=
  match castFloat (procStr r.tax_rate), castFloat (procStr r.net_price),
        castFloat (procStr r.bundle_size), castFloat (procStr r.amount_ordered),
        castFloat (procStr r.bundles_ordered) with
  | some t, some n, some b, some a, some bo =>
    some { order_ID := r.order_ID, product_ID := r.product_ID,
           tax_rate := t, net_price := n, bundle_size := b,
           supplier_code := procStr r.supplier_code,
           amount_ordered := a, bundles_ordered := bo }
  | _, _, _, _, _ => none

/-- Embedding of `make_df_products` (the dtype/string-processing part), row by row;
a failing cast anywhere fails the build. -/
def make_df_products : List RawProduct → Option (List ProductCells)
  | [] => some []
  | r :: rs =>
    match buildProduct r, make_df_products rs with
    | some c, some cs => some (c :: cs)
    | _, _ => none

/-! ### Feature derivation (`src/data/features.py`)

`features.main` adds `net_total_price = net_price * amount_ordered` to
the products table, sums it per order (`groupby(order_ID).sum()`,
which skips NaN), rounds to 2 decimals (numpy rounds half to even) and
assigns the result to the orders table by index alignment: orders with
no product rows get NaN.  `order_request_value` goes over one member
row's `order_requests` dict, parses `filled_amount` (comma replacement,
blank to 0, float cast), looks `net_price` up in the products table
(`KeyError` if absent), and rounds the NaN-skipping sum of the
products. -/

/-- One row of the orders table, with the derived total column. -/
structure OrderTotal where
  order_ID : Int
  total_order_value : Option ℚ
deriving DecidableEq, Repr

/-- One row of the products float columns as `features.main` reads
them (`none` = NaN). -/
structure ProductIn where
  order_ID : Int
  product_ID : Int
  net_price : Option ℚ
  amount_ordered : Option ℚ
deriving DecidableEq, Repr

/-- A products row with the derived `net_total_price` column. -/
structure ProductF extends ProductIn where
  net_total_price : Option ℚ
deriving DecidableEq, Repr

/-- Float multiplication with NaN propagation. -/
def omul : Option ℚ → Option ℚ → Option ℚ
  | some a, some b => some (a * b)
  | _, _ => none

/-- A pandas NaN-skipping sum (`skipna=True`, empty sum 0). -/
def sumSkipNa (l : List (Option ℚ)) : ℚ :=
  (l.filterMap id).sum

/-- Rounding half to even (numpy / pandas `round`). -/
def roundHalfEven (x : ℚ) : Int :=
  if x - Int.floor x < 1 / 2 then Int.floor x
  else if 1 / 2 < x - Int.floor x then Int.floor x + 1
  else if Int.floor x % 2 = 0 then Int.floor x else Int.floor x + 1

/-- Embedding of `round(2)` on a scalar. -/
def round2 (x : ℚ) : ℚ :=
  (roundHalfEven (100 * x) : ℚ) / 100

/-- Embedding of `net_total_price = net_price * amount_ordered` on the products table. -/
def addNetTotal (ps : List ProductIn) : List ProductF :=
  ps.map (fun r => { toProductIn := r, net_total_price := omul r.net_price r.amount_ordered })

/-- Embedding of `groupby(order_ID).net_total_price.sum().round(2)` aligned to
one order: NaN when the order has no product rows (no group). -/
def totalOrderValue (ps : List ProductF) (oid : Int) : Option ℚ :=
  if (ps.filter (fun q => q.order_ID = oid)) = [] then none
  else some (round2 (sumSkipNa ((ps.filter (fun q => q.order_ID = oid)).map
    (fun q => q.net_total_price))))

/-- The `features.main` steps the order/product claims are about:
derive `net_total_price`, then `total_order_value` per order. -/
def features_main (orders : List Int) (products : List ProductIn) :
    List OrderTotal × List ProductF :=
  (orders.map (fun oid =>
    { order_ID := oid, total_order_value := totalOrderValue (addNetTotal products) oid }),
   addNetTotal products)

/-- One raw member row as `order_request_value` reads it: the
`order_requests` mapping sends a product_ID to the pair
`(filled_amount, ordered_amount)` of decimal-comma strings. -/
structure MemberRaw where
  member_ID : Int
  order_ID : Int
  order_requests : List (Int × String × String)
deriving DecidableEq, Repr

/-- Embedding of the net_price lookup `df_products.loc[(order_ID, product_ID)]`: `none` is
the `KeyError` on a missing reference, `some` carries the (possibly
NaN) net price. -/
def lookupNetPrice (ps : List ProductF) (oid pid : Int) : Option (Option ℚ) :=
  match ps.filter (fun q => q.order_ID = oid ∧ q.product_ID = pid) with
  | [] => none
  | q :: _ => some q.net_price

/-- Test for the blank-string regex `^\s*$`. -/
def isBlank (s : String) : Bool :=
  s.toList.all (fun c => c.isWhitespace)

/-- Processing of one `filled_amount` string: comma replacement, the
blank regex replaces it by 0, otherwise a float cast. -/
def parseFilled (s : String) : Option ℚ :=
  if isBlank (commaToDot s) then some 0 else parseDec (commaToDot s)

/-- Embedding of `order_request_value` for one member row: the rounded NaN-skipping
sum of `net_price * filled_amount` over the requested products; `none`
when a filled amount fails to parse or a referenced product is missing
(the Python code raises there). -/
def orderRequestValue (ps : List ProductF) (r : MemberRaw) : Option ℚ :=
  (r.order_requests.mapM (fun req =>
    (parseFilled req.2.1).bind (fun f =>
      (lookupNetPrice ps r.order_ID req.1).map (fun np => omul np (some f))))).map
    (fun terms => round2 (sumSkipNa terms))

/-! ## Theorems -/

theorem foldl_min_mem (ds : List Int) : ∀ d, ds.foldl min d ∈ d :: ds := by
  induction ds with
  | nil => intro d; simp
  | cons x xs ih =>
    intro d
    have h := ih (min d x)
    rcases List.mem_cons.mp h with h1 | h1
    · rcases le_total d x with hle | hle
      · rw [List.foldl_cons, h1, min_eq_left hle]; simp
      · rw [List.foldl_cons, h1, min_eq_right hle]; simp
    · simp [List.foldl_cons]
      right
      right
      exact h1

theorem foldl_min_le (ds : List Int) :
    ∀ d, ∀ x ∈ d :: ds, ds.foldl min d ≤ x := by
  induction ds with
  | nil => intro d x hx; simp at hx; simp [hx]
  | cons y ys ih =>
    intro d x hx
    rcases List.mem_cons.mp hx with h1 | h1
    · rw [h1]
      have := ih (min d y) (min d y) (by simp)
      exact le_trans this (min_le_left _ _)
    · rcases List.mem_cons.mp h1 with h2 | h2
      · rw [h2]
        have := ih (min d y) (min d y) (by simp)
        exact le_trans this (min_le_right _ _)
      · exact ih (min d y) x (by simp [h2])

theorem foldl_max_mem (ds : List Int) : ∀ d, ds.foldl max d ∈ d :: ds := by
  induction ds with
  | nil => intro d; simp
  | cons x xs ih =>
    intro d
    have h := ih (max d x)
    rcases List.mem_cons.mp h with h1 | h1
    · rcases le_total d x with hle | hle
      · rw [List.foldl_cons, h1, max_eq_right hle]; simp
      · rw [List.foldl_cons, h1, max_eq_left hle]; simp
    · simp [List.foldl_cons]
      right
      right
      exact h1

theorem foldl_max_ge (ds : List Int) :
    ∀ d, ∀ x ∈ d :: ds, x ≤ ds.foldl max d := by
  induction ds with
  | nil => intro d x hx; simp at hx; simp [hx]
  | cons y ys ih =>
    intro d x hx
    rcases List.mem_cons.mp hx with h1 | h1
    · rw [h1]
      have := ih (max d y) (max d y) (by simp)
      exact le_trans (le_max_left _ _) this
    · rcases List.mem_cons.mp h1 with h2 | h2
      · rw [h2]
        have := ih (max d y) (max d y) (by simp)
        exact le_trans (le_max_right _ _) this
      · exact ih (max d y) x (by simp [h2])

theorem minDate_mem (l : List Int) (h : l ≠ []) : minDate l ∈ l := by
  cases l with
  | nil => exact absurd rfl h
  | cons d ds => exact foldl_min_mem ds d

theorem minDate_le (l : List Int) : ∀ x ∈ l, minDate l ≤ x := by
  cases l with
  | nil => intro x hx; simp at hx
  | cons d ds => exact foldl_min_le ds d

theorem maxDate_mem (l : List Int) (h : l ≠ []) : maxDate l ∈ l := by
  cases l with
  | nil => exact absurd rfl h
  | cons d ds => exact foldl_max_mem ds d

theorem maxDate_ge (l : List Int) : ∀ x ∈ l, x ≤ maxDate l := by
  cases l with
  | nil => intro x hx; simp at hx
  | cons d ds => exact foldl_max_ge ds d


/-! ### Lemmas about the cohort pipeline. -/

theorem minDateOf_le (df : List MemberRow) (r : MemberRow) (hr : r ∈ df) :
    minDateOf df r.member_ID ≤ r.delivery_date := by
  apply minDate_le
  exact List.mem_map_of_mem _ (by simp [List.mem_filter, hr])

theorem minDateOf_attained (df : List MemberRow) (r : MemberRow) (hr : r ∈ df) :
    ∃ r0 ∈ df, r0.member_ID = r.member_ID ∧
      r0.delivery_date = minDateOf df r.member_ID := by
  have hmemf : r ∈ df.filter (fun x => x.member_ID = r.member_ID) := by
    simp [List.mem_filter, hr]
  have hne : (df.filter (fun x => x.member_ID = r.member_ID)).map
      (fun x => x.delivery_date) ≠ [] := by
    intro hcontra
    rw [List.map_eq_nil_iff] at hcontra
    rw [hcontra] at hmemf
    simp at hmemf
  have hmem := minDate_mem _ hne
  rw [List.mem_map] at hmem
  obtain ⟨r0, hr0f, hr0d⟩ := hmem
  rw [List.mem_filter] at hr0f
  obtain ⟨hr0df, hr0id⟩ := hr0f
  refine ⟨r0, hr0df, by simpa using hr0id, ?_⟩
  rw [minDateOf]
  exact hr0d

/-- For every row, there is a row of the same member sitting at the
member's first delivery: its `delivery_freq` equals its `cohort`,
and both equal the original row's `cohort`. -/
theorem min_row (p : Int → Int) (df : List MemberRow) (r : MemberRow) (hr : r ∈ df) :
    ∃ r0 ∈ df, r0.member_ID = r.member_ID ∧
      cohortOf p df r0 = cohortOf p df r ∧ dfreqOf p r0 = cohortOf p df r := by
  obtain ⟨r0, hr0df, hr0id, hr0d⟩ := minDateOf_attained df r hr
  refine ⟨r0, hr0df, hr0id, ?_, ?_⟩
  · rw [cohortOf, cohortOf, hr0id]
  · rw [dfreqOf, cohortOf, hr0d]

theorem cohortOf_le_dfreqOf (p : Int → Int) (hp : Monotone p)
    (df : List MemberRow) (r : MemberRow) (hr : r ∈ df) :
    cohortOf p df r ≤ dfreqOf p r :=
  hp (minDateOf_le df r hr)

theorem minPeriodNumber_eq_zero (p : Int → Int) (hp : Monotone p)
    (df : List MemberRow) (hne : df ≠ []) :
    minPeriodNumber p df = 0 := by
  obtain ⟨r, hr⟩ := List.exists_mem_of_ne_nil df hne
  obtain ⟨r0, hr0df, _, h0c, h0f⟩ := min_row p df r hr
  have h0 : (0 : Int) ∈ periodNumbers p df := by
    rw [periodNumbers, List.mem_dedup, List.mem_map]
    refine ⟨r0, hr0df, ?_⟩
    rw [h0c, h0f, sub_self]
  have hle : minPeriodNumber p df ≤ 0 := minDate_le _ _ h0
  have hmem : minPeriodNumber p df ∈ periodNumbers p df :=
    minDate_mem _ (List.ne_nil_of_mem h0)
  have hge : 0 ≤ minPeriodNumber p df := by
    rw [periodNumbers, List.mem_dedup, List.mem_map] at hmem
    obtain ⟨r1, hr1df, hr1v⟩ := hmem
    rw [← hr1v, sub_nonneg]
    exact cohortOf_le_dfreqOf p hp df r1 hr1df
  omega

theorem nMembers_ne_zero_elim (p : Int → Int) (df : List MemberRow) (c f : Int)
    (h : nMembers p df c f ≠ 0) :
    ∃ r ∈ df, cohortOf p df r = c ∧ dfreqOf p r = f := by
  rw [nMembers] at h
  have hne : ((df.filter (fun r => cohortOf p df r = c ∧ dfreqOf p r = f)).map
      (fun r => r.member_ID)).dedup ≠ [] := by
    intro h0
    exact h (by rw [h0]; rfl)
  obtain ⟨m, hm⟩ := List.exists_mem_of_ne_nil _ hne
  rw [List.mem_dedup, List.mem_map] at hm
  obtain ⟨r, hrf, _⟩ := hm
  rw [List.mem_filter] at hrf
  obtain ⟨hrd, hrp⟩ := hrf
  simp only [decide_eq_true_eq] at hrp
  exact ⟨r, hrd, hrp.1, hrp.2⟩

theorem nMembers_diag_pos (p : Int → Int) (df : List MemberRow) (c : Int)
    (hc : c ∈ cohortsOf p df) : nMembers p df c c ≠ 0 := by
  rw [cohortsOf, List.mem_dedup, List.mem_map] at hc
  obtain ⟨r, hrd, hrc⟩ := hc
  obtain ⟨r0, h0df, _, h0c, h0f⟩ := min_row p df r hrd
  have hmem : r0.member_ID ∈
      ((df.filter (fun x => cohortOf p df x = c ∧ dfreqOf p x = c)).map
        (fun x => x.member_ID)).dedup := by
    rw [List.mem_dedup, List.mem_map]
    refine ⟨r0, ?_, rfl⟩
    rw [List.mem_filter]
    refine ⟨h0df, ?_⟩
    simp only [decide_eq_true_eq]
    exact ⟨by rw [h0c, hrc], by rw [h0f, hrc]⟩
  rw [nMembers]
  intro h0
  rw [List.length_eq_zero] at h0
  rw [h0] at hmem
  simp at hmem

theorem nMembers_le_diag (p : Int → Int) (df : List MemberRow) (c n : Int) :
    nMembers p df c (c + n) ≤ nMembers p df c c := by
  rw [nMembers, nMembers, ← List.card_toFinset, ← List.card_toFinset]
  apply Finset.card_le_card
  intro m hm
  rw [List.mem_toFinset, List.mem_map] at hm
  obtain ⟨r, hrf, hrm⟩ := hm
  rw [List.mem_filter] at hrf
  obtain ⟨hrd, hrp⟩ := hrf
  simp only [decide_eq_true_eq] at hrp
  obtain ⟨r0, h0df, h0id, h0c, h0f⟩ := min_row p df r hrd
  rw [List.mem_toFinset, List.mem_map]
  refine ⟨r0, ?_, by rw [h0id, hrm]⟩
  rw [List.mem_filter]
  refine ⟨h0df, ?_⟩
  simp only [decide_eq_true_eq]
  exact ⟨by rw [h0c, hrp.1], by rw [h0f, hrp.1]⟩

theorem cohort_main_elim (freq : String) (p : Int → Int) (df : List MemberRow)
    (ret : Int → Int → Option ℚ) (piv : Int → Int → Option Nat) (cs : List Int)
    (h : cohort_main freq p df = some (ret, piv, cs)) :
    ret = retentionMatrix p (dropCompany df) ∧
    piv = cohortPivot p (dropCompany df) ∧
    cs = cohortsOf p (dropCompany df) := by
  rw [cohort_main] at h
  split at h
  · simp only [Option.some.injEq, Prod.mk.injEq] at h
    exact ⟨h.1.symm, h.2.1.symm, h.2.2.symm⟩
  · cases h

/-- Core fact behind C1: at any cohort label present in a (pre-filtered)
members table, the retention cell at period offset 0 is exactly 1. -/
theorem retention_zero_of_mem (p : Int → Int) (hp : Monotone p)
    (d : List MemberRow) (c : Int) (hc : c ∈ cohortsOf p d) :
    retentionMatrix p d c 0 = some 1 := by
  have hdne : d ≠ [] := by
    intro h0
    rw [cohortsOf, h0] at hc
    simp at hc
  have hmin := minPeriodNumber_eq_zero p hp d hdne
  have hk := nMembers_diag_pos p d c hc
  have hkQ : ((nMembers p d c c : ℚ)) ≠ 0 := Nat.cast_ne_zero.mpr hk
  rw [retentionMatrix, cohortSize, hmin, cohortPivot, add_zero, if_neg hk]
  simp [div_self hkQ]

/-- Core fact behind C2: every retention cell of a (pre-filtered)
members table is absent or lies in `[0, 1]`. -/
theorem retention_cell_unit (p : Int → Int) (hp : Monotone p)
    (d : List MemberRow) (c n : Int) :
    retentionMatrix p d c n = none ∨
      ∃ q : ℚ, retentionMatrix p d c n = some q ∧ 0 ≤ q ∧ q ≤ 1 := by
  by_cases hk : nMembers p d c (c + n) = 0
  · left
    rw [retentionMatrix, cohortPivot, if_pos hk]
  · right
    obtain ⟨r, hrd, hrc, _⟩ := nMembers_ne_zero_elim p d c (c + n) hk
    have hdne : d ≠ [] := List.ne_nil_of_mem hrd
    have hc : c ∈ cohortsOf p d := by
      rw [cohortsOf, List.mem_dedup, List.mem_map]
      exact ⟨r, hrd, hrc⟩
    have hmin := minPeriodNumber_eq_zero p hp d hdne
    have hk2 := nMembers_diag_pos p d c hc
    have hle := nMembers_le_diag p d c n
    have hk2Q : (0 : ℚ) < (nMembers p d c c : ℚ) := by
      exact_mod_cast Nat.pos_of_ne_zero hk2
    refine ⟨(nMembers p d c (c + n) : ℚ) / (nMembers p d c c : ℚ), ?_, ?_, ?_⟩
    · rw [retentionMatrix, cohortPivot, if_neg hk, cohortSize, hmin,
        cohortPivot, add_zero, if_neg hk2]
    · positivity
    · rw [div_le_one hk2Q]
      exact_mod_cast hle

/-- C1: for every non-empty members table (after excluding `member_ID`
46) and every valid granularity, every cohort row of the retention
matrix returned by `cohort.main` has value exactly 1 in its
`period_number = 0` column: the leftmost pivot column is the
`period_number = 0` column, it holds the cohort's initial size, and the
row is divided by exactly that value. -/
theorem c1_retention_first_column_one
    (p : Int → Int) (hp : Monotone p) (freq : String) (df : List MemberRow)
    (ret : Int → Int → Option ℚ) (piv : Int → Int → Option Nat) (cs : List Int)
    (h : cohort_main freq p df = some (ret, piv, cs)) :
    ∀ c ∈ cs, ret c 0 = some 1 := by
  obtain ⟨hret, hpiv, hcs⟩ := cohort_main_elim freq p df ret piv cs h
  subst hret hpiv hcs
  intro c hc
  exact retention_zero_of_mem p hp (dropCompany df) c hc

/-- C2: every cell of the retention matrix returned by `cohort.main` is
either absent (NaN) or a fraction in the closed interval `[0, 1]`: the
count of a cohort's members active at any offset never exceeds the
cohort's initial size, which is the value each row is divided by. -/
theorem c2_retention_cells_unit_interval
    (p : Int → Int) (hp : Monotone p) (freq : String) (df : List MemberRow)
    (ret : Int → Int → Option ℚ) (piv : Int → Int → Option Nat) (cs : List Int)
    (h : cohort_main freq p df = some (ret, piv, cs)) :
    ∀ c n : Int, ret c n = none ∨ ∃ q : ℚ, ret c n = some q ∧ 0 ≤ q ∧ q ≤ 1 := by
  obtain ⟨hret, hpiv, hcs⟩ := cohort_main_elim freq p df ret piv cs h
  subst hret hpiv hcs
  intro c n
  exact retention_cell_unit p hp (dropCompany df) c n


/-! ### C3, C8 and the `make_table` facts leading to C4. -/

theorem dropCompany_idem (df : List MemberRow) :
    dropCompany (dropCompany df) = dropCompany df := by
  rw [dropCompany, dropCompany, List.filter_filter]
  simp

/-- C3: member 46 contributes to no cohort count and has no row in the
RFM table: the cohort outputs on any members table equal the outputs on
the table with member 46's rows removed, and every row of the RFM table
`make_table` builds belongs to a member other than 46. -/
theorem c3_member46_excluded (p : Int → Int) (freq : String) (df : List MemberRow) :
    cohort_main freq p df = cohort_main freq p (dropCompany df) ∧
    ∀ row ∈ make_table p freq df, row.member_ID ≠ 46 := by
  constructor
  · rw [cohort_main, cohort_main, dropCompany_idem]
  · intro row hrow
    rw [make_table, List.mem_map] at hrow
    obtain ⟨m, hm, heq⟩ := hrow
    rw [List.mem_dedup, List.mem_map] at hm
    obtain ⟨r, hrd, hrm⟩ := hm
    rw [dropCompany, List.mem_filter] at hrd
    have h46 : r.member_ID ≠ 46 := by simpa using hrd.2
    rw [← heq]
    show m ≠ 46
    rw [← hrm]
    exact h46

/-- C8: a granularity outside the accepted set makes both entry points
return early with no result: `cohort.main` outside month/quarter returns
`None`, `rfm.main` outside week/month returns `None` before any
computation (neither raises). -/
theorem c8_invalid_freq_returns_nothing (freq : String) (p : Int → Int)
    (df : List MemberRow) :
    (freq ≠ "M" → freq ≠ "Q" → cohort_main freq p df = none) ∧
    (freq ≠ "W" → freq ≠ "M" → rfm_main freq p df = RfmResult.invalidFreq) := by
  constructor
  · intro h1 h2
    rw [cohort_main, if_neg (not_or.mpr ⟨h1, h2⟩)]
  · intro h1 h2
    rw [rfm_main, if_neg (not_or.mpr ⟨h1, h2⟩)]

theorem periodLen_W : periodLen ("W") = 7 := rfl

theorem periodLen_M : periodLen ("M") = 2629746 / 86400 := rfl

theorem periodLen_pos (freq : String) (hfreq : freq = "W" ∨ freq = "M") :
    0 < periodLen freq := by
  rcases hfreq with h | h <;> subst h
  · rw [periodLen_W]; norm_num
  · rw [periodLen_M]; norm_num

theorem periodsOf_mem (p : Int → Int) (d : List MemberRow) (m : Int)
    (r : MemberRow) (hr : r ∈ d) (hm : r.member_ID = m) :
    p r.delivery_date ∈ periodsOf p d m := by
  rw [periodsOf, List.mem_dedup, List.mem_map]
  refine ⟨r, ?_, rfl⟩
  rw [List.mem_filter]
  exact ⟨hr, by simp [hm]⟩

theorem memberDates_ne_nil (d : List MemberRow) (m : Int)
    (r : MemberRow) (hr : r ∈ d) (hm : r.member_ID = m) :
    memberDates d m ≠ [] := by
  have : r.delivery_date ∈ memberDates d m := by
    rw [memberDates, List.mem_map]
    refine ⟨r, ?_, rfl⟩
    rw [List.mem_filter]
    exact ⟨hr, by simp [hm]⟩
  exact List.ne_nil_of_mem this

/-- The latest bucketed period of a member is the bucket of the
member's latest raw delivery date (`to_period` is monotone). -/
theorem maxDate_periodsOf (p : Int → Int) (hp : Monotone p)
    (d : List MemberRow) (m : Int) (hne : memberDates d m ≠ []) :
    maxDate (periodsOf p d m) = p (maxDate (memberDates d m)) := by
  have hPer : periodsOf p d m = ((memberDates d m).map p).dedup := by
    rw [periodsOf, memberDates, List.map_map]
    rfl
  have hpne : ((memberDates d m).map p).dedup ≠ [] := by
    intro h0
    have : p (maxDate (memberDates d m)) ∈ ((memberDates d m).map p).dedup := by
      rw [List.mem_dedup, List.mem_map]
      exact ⟨maxDate (memberDates d m), maxDate_mem _ hne, rfl⟩
    rw [h0] at this
    simp at this
  rw [hPer]
  apply le_antisymm
  · have hmem := maxDate_mem _ hpne
    rw [List.mem_dedup, List.mem_map] at hmem
    obtain ⟨t, ht, htv⟩ := hmem
    rw [← htv]
    exact hp (maxDate_ge _ t ht)
  · apply maxDate_ge
    rw [List.mem_dedup, List.mem_map]
    exact ⟨maxDate (memberDates d m), maxDate_mem _ hne, rfl⟩

/-- C4: every row of the RFM table has
`recency = floor((period_end - latest_period) / period_length)` where
`period_end` is the global latest delivery date, `latest_period` is the
period bucket of the member's latest delivery, and the period length is
the fixed numpy length of the chosen granularity. -/
theorem c4_recency_floor_division
    (p : Int → Int) (hp : Monotone p) (freq : String)
    (_hfreq : freq = "W" ∨ freq = "M") (df : List MemberRow)
    (row : RfmRow) (hrow : row ∈ make_table p freq df) :
    row.recency = Int.floor
      (((maxDate ((dropCompany df).map (fun r => r.delivery_date)) : ℚ)
        - (p (maxDate (memberDates (dropCompany df) row.member_ID)) : ℚ))
        / periodLen freq) := by
  rw [make_table, List.mem_map] at hrow
  obtain ⟨m, hm, heq⟩ := hrow
  rw [List.mem_dedup, List.mem_map] at hm
  obtain ⟨r, hrd, hrm⟩ := hm
  subst heq
  dsimp only
  rw [maxDate_periodsOf p hp (dropCompany df) m (memberDates_ne_nil _ m r hrd hrm)]

/-- The aggregation invariants of `make_table` rows: each member has at
least one active period, and the latest period never exceeds the global
latest delivery date, so recency is nonnegative. -/
theorem make_table_row_facts (p : Int → Int) (hp : Monotone p)
    (hps : ∀ t : Int, p t ≤ t) (freq : String) (hlen : 0 < periodLen freq)
    (df : List MemberRow) (row : RfmRow) (hrow : row ∈ make_table p freq df) :
    1 ≤ row.frequency ∧ 0 ≤ row.recency := by
  rw [make_table, List.mem_map] at hrow
  obtain ⟨m, hm, heq⟩ := hrow
  rw [List.mem_dedup, List.mem_map] at hm
  obtain ⟨r, hrd, hrm⟩ := hm
  subst heq
  dsimp only
  constructor
  · have hmem := periodsOf_mem p (dropCompany df) m r hrd hrm
    have := List.length_pos.mpr (List.ne_nil_of_mem hmem)
    omega
  · apply Int.floor_nonneg.mpr
    apply div_nonneg _ (le_of_lt hlen)
    rw [sub_nonneg]
    have hneMD := memberDates_ne_nil (dropCompany df) m r hrd hrm
    rw [maxDate_periodsOf p hp _ m hneMD]
    have h1 : p (maxDate (memberDates (dropCompany df) m))
        ≤ maxDate (memberDates (dropCompany df) m) := hps _
    have h2 := maxDate_mem _ hneMD
    rw [memberDates, List.mem_map] at h2
    obtain ⟨r2, hr2, hr2d⟩ := h2
    rw [List.mem_filter] at hr2
    have h3 : maxDate (memberDates (dropCompany df) m)
        ∈ (dropCompany df).map (fun x => x.delivery_date) := by
      rw [List.mem_map]
      exact ⟨r2, hr2.1, hr2d⟩
    have h4 := maxDate_ge _ _ h3
    exact_mod_cast le_trans h1 h4

/-! ### The recency binning (C6). -/

theorem rEdges_W : rEdges ("W") =
    [(0 : WithTop ℚ), ((13 : ℚ) : WithTop ℚ), ((26 : ℚ) : WithTop ℚ),
     ((52 : ℚ) : WithTop ℚ), ⊤] := by
  have h : freqsPerYear ("W") = 52 := rfl
  rw [rEdges, h]
  have e1 : (((1 : ℚ) / 4 : ℚ) : WithTop ℚ) * ((52 : ℚ) : WithTop ℚ)
      = ((13 : ℚ) : WithTop ℚ) := by
    exact_mod_cast (by norm_num : ((1 : ℚ) / 4) * 52 = (13 : ℚ))
  have e2 : (((1 : ℚ) / 2 : ℚ) : WithTop ℚ) * ((52 : ℚ) : WithTop ℚ)
      = ((26 : ℚ) : WithTop ℚ) := by
    exact_mod_cast (by norm_num : ((1 : ℚ) / 2) * 52 = (26 : ℚ))
  have e3 : ((1 : ℚ) : WithTop ℚ) * ((52 : ℚ) : WithTop ℚ)
      = ((52 : ℚ) : WithTop ℚ) := by
    exact_mod_cast (by norm_num : (1 : ℚ) * 52 = (52 : ℚ))
  have e4 : (⊤ : WithTop ℚ) * ((52 : ℚ) : WithTop ℚ) = ⊤ := by
    apply WithTop.top_mul
    exact_mod_cast (by norm_num : (52 : ℚ) ≠ 0)
  simp only [List.map_cons, List.map_nil, zero_mul, e1, e2, e3, e4]

theorem rEdges_M : rEdges ("M") =
    [(0 : WithTop ℚ), ((3 : ℚ) : WithTop ℚ), ((6 : ℚ) : WithTop ℚ),
     ((12 : ℚ) : WithTop ℚ), ⊤] := by
  have h : freqsPerYear ("M") = 12 := rfl
  rw [rEdges, h]
  have e1 : (((1 : ℚ) / 4 : ℚ) : WithTop ℚ) * ((12 : ℚ) : WithTop ℚ)
      = ((3 : ℚ) : WithTop ℚ) := by
    exact_mod_cast (by norm_num : ((1 : ℚ) / 4) * 12 = (3 : ℚ))
  have e2 : (((1 : ℚ) / 2 : ℚ) : WithTop ℚ) * ((12 : ℚ) : WithTop ℚ)
      = ((6 : ℚ) : WithTop ℚ) := by
    exact_mod_cast (by norm_num : ((1 : ℚ) / 2) * 12 = (6 : ℚ))
  have e3 : ((1 : ℚ) : WithTop ℚ) * ((12 : ℚ) : WithTop ℚ)
      = ((12 : ℚ) : WithTop ℚ) := by
    exact_mod_cast (by norm_num : (1 : ℚ) * 12 = (12 : ℚ))
  have e4 : (⊤ : WithTop ℚ) * ((12 : ℚ) : WithTop ℚ) = ⊤ := by
    apply WithTop.top_mul
    exact_mod_cast (by norm_num : (12 : ℚ) ≠ 0)
  simp only [List.map_cons, List.map_nil, zero_mul, e1, e2, e3, e4]

/-- Closed form of `pd.cut` over edges `[0, a, b, c, ∞]` with labels
`[4, 3, 2, 1]` and the lowest edge included, for nonnegative inputs. -/
theorem cut_labels_closed (x a b c : ℚ) (hx : 0 ≤ x) :
    (cutIdx [(0 : WithTop ℚ), ((a : ℚ) : WithTop ℚ), ((b : ℚ) : WithTop ℚ),
      ((c : ℚ) : WithTop ℚ), ⊤] x).bind (fun i => ([4, 3, 2, 1] : List Nat)[i]?) =
    some (if x ≤ a then 4 else if x ≤ b then 3 else if x ≤ c then 2 else 1) := by
  rw [cutIdx]
  have h0 : ¬ ((x : WithTop ℚ) < (0 : WithTop ℚ)) := by
    rw [not_lt]
    exact_mod_cast hx
  rw [if_neg h0]
  by_cases h1 : x ≤ a
  · rw [if_pos h1, cutGo, if_pos (by exact_mod_cast h1)]
    rfl
  · rw [if_neg h1, cutGo, if_neg (by exact_mod_cast h1)]
    by_cases h2 : x ≤ b
    · rw [if_pos h2, cutGo, if_pos (by exact_mod_cast h2)]
      rfl
    · rw [if_neg h2, cutGo, if_neg (by exact_mod_cast h2)]
      by_cases h3 : x ≤ c
      · rw [if_pos h3, cutGo, if_pos (by exact_mod_cast h3)]
        rfl
      · rw [if_neg h3, cutGo, if_neg (by exact_mod_cast h3), cutGo,
          if_pos (le_top : (x : WithTop ℚ) ≤ ⊤)]
        rfl

/-- Evaluation of the recency score for a valid granularity:
fixed bins at `0, 0.25, 0.5, 1, ∞` times the periods-per-year count,
labelled 4 (most recent) down to 1, lowest boundary included. -/
theorem rScore_eval (freq : String) (hfreq : freq = "W" ∨ freq = "M")
    (x : ℚ) (hx : 0 ≤ x) :
    rScore freq x = some (if x ≤ (1 / 4 : ℚ) * freqsPerYear freq then 4
      else if x ≤ (1 / 2 : ℚ) * freqsPerYear freq then 3
      else if x ≤ freqsPerYear freq then 2 else 1) := by
  rcases hfreq with h | h <;> subst h
  · have hpy : freqsPerYear ("W") = 52 := rfl
    rw [rScore, rEdges_W, hpy, cut_labels_closed x 13 26 52 hx]
    norm_num
  · have hpy : freqsPerYear ("M") = 12 := rfl
    rw [rScore, rEdges_M, hpy, cut_labels_closed x 3 6 12 hx]
    norm_num

/-- C6: the recency score is assigned by fixed bins with boundaries
`0, 0.25, 0.5, 1, ∞` multiplied by the periods-per-year count of the
granularity (52 for 'W', 12 for 'M'), labelled 4 for the most recent
bin down to 1, with the lowest boundary included in the best bin. -/
theorem c6_recency_fixed_bins (freq : String) (hfreq : freq = "W" ∨ freq = "M")
    (x : ℚ) (hx : 0 ≤ x) :
    rScore freq x = some (if x ≤ (1 / 4 : ℚ) * freqsPerYear freq then 4
      else if x ≤ (1 / 2 : ℚ) * freqsPerYear freq then 3
      else if x ≤ freqsPerYear freq then 2 else 1) ∧
    freqsPerYear ("W") = 52 ∧ freqsPerYear ("M") = 12 :=
  ⟨rScore_eval freq hfreq x hx, rfl, rfl⟩

/-! ### The quartile binning and the RFM row invariants (C7). -/

theorem cutGo_some_lt (x : WithTop ℚ) (es : List (WithTop ℚ)) :
    ∀ i j, cutGo x es i = some j → j < i + es.length := by
  induction es with
  | nil => intro i j h; rw [cutGo] at h; cases h
  | cons e es ih =>
    intro i j h
    rw [cutGo] at h
    by_cases hc : x ≤ e
    · rw [if_pos hc] at h
      injection h with h
      rw [List.length_cons]
      omega
    · rw [if_neg hc] at h
      have hl := ih (i + 1) j h
      rw [List.length_cons]
      omega

theorem cutGo_isSome (x : WithTop ℚ) :
    ∀ es : List (WithTop ℚ), (∃ e ∈ es, x ≤ e) → ∀ i, ∃ j, cutGo x es i = some j := by
  intro es
  induction es with
  | nil =>
    intro h i
    obtain ⟨e, he, _⟩ := h
    simp at he
  | cons a as ih =>
    intro h i
    rw [cutGo]
    by_cases hc : x ≤ a
    · exact ⟨i, by rw [if_pos hc]⟩
    · rw [if_neg hc]
      obtain ⟨e, he, hxe⟩ := h
      rcases List.mem_cons.mp he with h1 | h1
      · rw [h1] at hxe
        exact absurd hxe hc
      · exact ih ⟨e, h1, hxe⟩ (i + 1)

theorem qtile_zero (v : List ℚ) : qtile v 0 = v.getD 0 0 := by
  norm_num [qtile]

theorem qtile_four (v : List ℚ) (hv : v ≠ []) :
    qtile v 4 = v.getD (v.length - 1) 0 := by
  have hn : 1 ≤ v.length := List.length_pos.mpr hv
  have hpos : ((4 : ℕ) : ℚ) / 4 * ((v.length : ℚ) - 1) = ((v.length - 1 : ℕ) : ℚ) := by
    rw [Nat.cast_sub hn]
    push_cast
    ring
  simp only [qtile, hpos, Int.floor_natCast, Int.toNat_natCast, sub_self, zero_mul,
    add_zero]

theorem sortQ_sorted (xs : List ℚ) :
    List.Sorted (fun a b : ℚ => a ≤ b) (sortQ xs) :=
  List.sorted_insertionSort _ xs

theorem mem_sortQ (xs : List ℚ) (x : ℚ) (hx : x ∈ xs) : x ∈ sortQ xs :=
  ((List.perm_insertionSort _ xs).mem_iff).mpr hx

theorem sorted_head_le (s : List ℚ) (hs : List.Sorted (fun a b : ℚ => a ≤ b) s)
    (x : ℚ) (hx : x ∈ s) : s.getD 0 0 ≤ x := by
  cases s with
  | nil => simp at hx
  | cons a l =>
    rw [List.getD_cons_zero]
    rcases List.mem_cons.mp hx with h | h
    · exact le_of_eq h.symm
    · exact (List.sorted_cons.mp hs).1 x h

theorem sorted_le_last : ∀ s : List ℚ, List.Sorted (fun a b : ℚ => a ≤ b) s →
    ∀ x ∈ s, x ≤ s.getD (s.length - 1) 0 := by
  intro s
  induction s with
  | nil => intro _ x hx; simp at hx
  | cons a l ih =>
    intro hs x hx
    obtain ⟨ha, hl⟩ := List.sorted_cons.mp hs
    cases l with
    | nil =>
      simp at hx
      rw [hx]
      simp
    | cons b m =>
      have hidx : ((a :: b :: m).getD ((a :: b :: m).length - 1) 0)
          = ((b :: m).getD ((b :: m).length - 1) 0) := by
        simp [List.length_cons, List.getD_cons_succ]
      rw [hidx]
      rcases List.mem_cons.mp hx with h | h
      · have hlt : (b :: m).length - 1 < (b :: m).length := by
          rw [List.length_cons]
          omega
        have hmem : (b :: m).getD ((b :: m).length - 1) 0 ∈ b :: m := by
          rw [List.getD_eq_getElem _ _ hlt]
          exact List.getElem_mem hlt
        rw [h]
        exact ha _ hmem
      · exact ih hl x h

theorem cutIdx_cons (e0 : WithTop ℚ) (rest : List (WithTop ℚ)) (x : ℚ) :
    cutIdx (e0 :: rest) x =
      if (x : WithTop ℚ) < e0 then none else cutGo (x : WithTop ℚ) rest 0 := rfl

theorem qLabel_mem (xs : List ℚ) (x : ℚ) (hx : x ∈ xs) :
    ∃ l, qLabel xs x = some l ∧ l ∈ ([1, 2, 3, 4] : List Nat) := by
  have hmemS : x ∈ sortQ xs := mem_sortQ xs x hx
  have hsne : sortQ xs ≠ [] := List.ne_nil_of_mem hmemS
  have hs := sortQ_sorted xs
  have hlow : qtile (sortQ xs) 0 ≤ x := by
    rw [qtile_zero]
    exact sorted_head_le _ hs x hmemS
  have hhigh : x ≤ qtile (sortQ xs) 4 := by
    rw [qtile_four _ hsne]
    exact sorted_le_last _ hs x hmemS
  simp only [qLabel, qcutEdges, List.map_cons, List.map_nil]
  rw [cutIdx_cons, if_neg (by exact_mod_cast not_lt.mpr hlow)]
  obtain ⟨j, hj⟩ := cutGo_isSome (x : WithTop ℚ)
    [((qtile (sortQ xs) 1 : ℚ) : WithTop ℚ), ((qtile (sortQ xs) 2 : ℚ) : WithTop ℚ),
     ((qtile (sortQ xs) 3 : ℚ) : WithTop ℚ), ((qtile (sortQ xs) 4 : ℚ) : WithTop ℚ)]
    ⟨((qtile (sortQ xs) 4 : ℚ) : WithTop ℚ), by simp, by exact_mod_cast hhigh⟩ 0
  have hjlt := cutGo_some_lt (x : WithTop ℚ) _ 0 j hj
  simp only [List.length_cons, List.length_nil] at hjlt
  rw [hj]
  have hj4 : j < 4 := by omega
  interval_cases j <;> exact ⟨_, rfl, by simp⟩

theorem rScore_mem (freq : String) (hfreq : freq = "W" ∨ freq = "M")
    (x : ℚ) (hx : 0 ≤ x) :
    ∃ l, rScore freq x = some l ∧ l ∈ ([1, 2, 3, 4] : List Nat) := by
  rw [rScore_eval freq hfreq x hx]
  refine ⟨_, rfl, ?_⟩
  split_ifs <;> simp

theorem scoreStr_digit (l : Nat) (hl : l ∈ ([1, 2, 3, 4] : List Nat)) :
    (scoreStr (some l)).length = 1 ∧
    ∀ ch ∈ (scoreStr (some l)).data, ch ∈ (['1', '2', '3', '4'] : List Char) := by
  fin_cases hl <;> exact ⟨by decide, by decide⟩

/-- C7: every row of the scored RFM table returned by `rfm.main` has
`frequency ≥ 1`, `recency ≥ 0`, and an `rfm_score` that is a 3-character
string whose characters are all digits in `{1, 2, 3, 4}` (recency,
frequency, monetary digits in that order). -/
theorem c7_rfm_row_invariants (p : Int → Int) (hp : Monotone p)
    (hps : ∀ t : Int, p t ≤ t) (freq : String) (df : List MemberRow)
    (t : List ScoredRow) (h : rfm_main freq p df = RfmResult.ok t) :
    ∀ row ∈ t, 1 ≤ row.frequency ∧ 0 ≤ row.recency ∧
      row.rfm_score.length = 3 ∧
      ∀ ch ∈ row.rfm_score.data, ch ∈ (['1', '2', '3', '4'] : List Char) := by
  rw [rfm_main] at h
  by_cases hval : freq = "W" ∨ freq = "M"
  · rw [if_pos hval] at h
    cases hadd : add_score freq (make_table p freq df) with
    | none => rw [hadd] at h; cases h
    | some t2 =>
      rw [hadd] at h
      injection h with ht
      subst ht
      have ht2 : t2 = (make_table p freq df).map
          (fun r => scoreRow freq (make_table p freq df) r) := by
        rw [add_score] at hadd
        split at hadd
        · injection hadd with h2
          exact h2.symm
        · cases hadd
      subst ht2
      intro row hrow
      rw [List.mem_map] at hrow
      obtain ⟨r, hrT, hrow⟩ := hrow
      subst hrow
      obtain ⟨hfr, hrec⟩ := make_table_row_facts p hp hps freq
        (periodLen_pos freq hval) df r hrT
      obtain ⟨lr, hlr, hlrm⟩ := rScore_mem freq hval (r.recency : ℚ)
        (by exact_mod_cast hrec)
      obtain ⟨lf, hlf, hlfm⟩ := qLabel_mem
        ((make_table p freq df).map (fun x => (x.frequency : ℚ))) (r.frequency : ℚ)
        (by rw [List.mem_map]; exact ⟨r, hrT, rfl⟩)
      obtain ⟨lm, hlm, hlmm⟩ := qLabel_mem
        ((make_table p freq df).map (fun x => x.monetary_value)) r.monetary_value
        (by rw [List.mem_map]; exact ⟨r, hrT, rfl⟩)
      have hscore : (scoreRow freq (make_table p freq df) r).rfm_score
          = scoreStr (rScore freq ((r.recency : ℚ)))
            ++ scoreStr (qLabel ((make_table p freq df).map
                (fun x => (x.frequency : ℚ))) (r.frequency : ℚ))
            ++ scoreStr (qLabel ((make_table p freq df).map
                (fun x => x.monetary_value)) r.monetary_value) := rfl
      refine ⟨hfr, hrec, ?_⟩
      rw [hscore, hlr, hlf, hlm]
      fin_cases hlrm <;> fin_cases hlfm <;> fin_cases hlmm <;>
        exact ⟨by decide, by decide⟩
  · rw [if_neg hval] at h
    cases h

/-! ### The products dtype claim (C5). -/

/-- A cell belongs to a float-dtype column: a number or NaN. -/
theorem castFloat_shape (cell c : Cell) (h : castFloat cell = some c) :
    c = Cell.na ∨ ∃ q : ℚ, c = Cell.num q := by
  cases cell with
  | na =>
    rw [castFloat] at h
    injection h with h
    exact Or.inl h.symm
  | str s =>
    rw [castFloat] at h
    cases hp : parseDec s with
    | none => rw [hp] at h; cases h
    | some q =>
      rw [hp] at h
      injection h with h
      exact Or.inr ⟨q, h.symm⟩
  | num q =>
    rw [castFloat] at h
    injection h with h
    exact Or.inr ⟨q, h.symm⟩

theorem buildProduct_elim (r : RawProduct) (c : ProductCells)
    (h : buildProduct r = some c) :
    castFloat (procStr r.tax_rate) = some c.tax_rate ∧
    castFloat (procStr r.net_price) = some c.net_price ∧
    castFloat (procStr r.bundle_size) = some c.bundle_size ∧
    castFloat (procStr r.amount_ordered) = some c.amount_ordered ∧
    castFloat (procStr r.bundles_ordered) = some c.bundles_ordered ∧
    c.supplier_code = procStr r.supplier_code := by
  rw [buildProduct] at h
  split at h
  · injection h with h
    subst h
    refine ⟨?_, ?_, ?_, ?_, ?_, rfl⟩ <;> assumption
  · cases h

/-- C5 counterexample: on a concrete product row, the builder succeeds
but leaves `supplier_code` as a string cell (the comma replaced), not a
float: the claim that all six fields are cast to floating point fails. -/
theorem c5_counterexample :
    make_df_products [⟨1, 2, ("1"), ("2"), ("3"), ("46,00"), ("5"), ("6")⟩] =
      some [⟨1, 2, Cell.num 1, Cell.num 2, Cell.num 3,
        Cell.str ("46.00"), Cell.num 5, Cell.num 6⟩] ∧
    ¬ (Cell.str ("46.00") = Cell.na ∨ ∃ q : ℚ, Cell.str ("46.00") = Cell.num q) := by
  constructor
  · rfl
  · intro h
    rcases h with h | ⟨q, h⟩ <;> cases h

/-- C5 amended: of the six decimal-comma fields, the five in the
`astype` mapping are cast to floating point (number or NaN), while
`supplier_code` only receives the string replacements (comma to dot,
empty to missing) and keeps string dtype. -/
theorem c5_amended_supplier_code_not_cast (raw : List RawProduct)
    (out : List ProductCells) (h : make_df_products raw = some out) :
    List.Forall₂ (fun (a : RawProduct) (pr : ProductCells) =>
      (pr.tax_rate = Cell.na ∨ ∃ q : ℚ, pr.tax_rate = Cell.num q) ∧
      (pr.net_price = Cell.na ∨ ∃ q : ℚ, pr.net_price = Cell.num q) ∧
      (pr.bundle_size = Cell.na ∨ ∃ q : ℚ, pr.bundle_size = Cell.num q) ∧
      (pr.amount_ordered = Cell.na ∨ ∃ q : ℚ, pr.amount_ordered = Cell.num q) ∧
      (pr.bundles_ordered = Cell.na ∨ ∃ q : ℚ, pr.bundles_ordered = Cell.num q) ∧
      pr.supplier_code = procStr a.supplier_code) raw out := by
  induction raw generalizing out with
  | nil =>
    rw [make_df_products] at h
    injection h with h
    rw [← h]
    exact List.Forall₂.nil
  | cons r rs ih =>
    rw [make_df_products] at h
    split at h
    · injection h with h
      subst h
      rename_i c cs hc hcs
      obtain ⟨h1, h2, h3, h4, h5, h6⟩ := buildProduct_elim r c hc
      exact List.Forall₂.cons
        ⟨castFloat_shape _ _ h1, castFloat_shape _ _ h2, castFloat_shape _ _ h3,
         castFloat_shape _ _ h4, castFloat_shape _ _ h5, h6⟩
        (ih cs hcs)
    · cases h

/-! ### The feature derivation claims (C9, C10). -/

/-- C9 counterexample: an order with no product rows gets a missing
`total_order_value` (pandas index alignment), not the empty sum 0, so
the claim that every order's total equals the rounded sum over its
product rows fails. -/
theorem c9_counterexample :
    (features_main [1] []).1 = [⟨1, none⟩] ∧
    ¬ ∀ o ∈ (features_main [1] []).1,
        o.total_order_value = some (round2 (sumSkipNa
          (((features_main [1] []).2.filter (fun q => q.order_ID = o.order_ID)).map
            (fun q => q.net_total_price)))) := by
  constructor
  · rfl
  · intro hclaim
    have h := hclaim ⟨1, none⟩ (by decide)
    exact Option.noConfusion h

/-- C9 amended: `net_total_price = net_price * amount_ordered` on every
product row, and `total_order_value` is the 2-decimal rounding of the
NaN-skipping sum of the order's product rows when the order has product
rows, and missing when it has none. -/
theorem c9_amended_order_totals (orders : List Int) (products : List ProductIn) :
    (∀ q ∈ (features_main orders products).2,
      q.net_total_price = omul q.net_price q.amount_ordered) ∧
    ∀ o ∈ (features_main orders products).1,
      (((features_main orders products).2.filter
          (fun q => q.order_ID = o.order_ID)) ≠ [] →
        o.total_order_value = some (round2 (sumSkipNa
          (((features_main orders products).2.filter
            (fun q => q.order_ID = o.order_ID)).map (fun q => q.net_total_price))))) ∧
      (((features_main orders products).2.filter
          (fun q => q.order_ID = o.order_ID)) = [] →
        o.total_order_value = none) := by
  have h2 : (features_main orders products).2 = addNetTotal products := rfl
  have h1 : (features_main orders products).1 = orders.map (fun oid =>
      { order_ID := oid,
        total_order_value := totalOrderValue (addNetTotal products) oid }) := rfl
  constructor
  · intro q hq
    rw [h2, addNetTotal, List.mem_map] at hq
    obtain ⟨q0, _, hq⟩ := hq
    subst hq
    rfl
  · intro o ho
    rw [h1, List.mem_map] at ho
    obtain ⟨oid, _, ho⟩ := ho
    subst ho
    rw [h2]
    dsimp only
    constructor
    · intro hne
      rw [totalOrderValue, if_neg hne]
    · intro he
      rw [totalOrderValue, if_pos he]

theorem sumSkipNa_zero : ∀ l : List (Option ℚ),
    (∀ t ∈ l, t = none ∨ t = some 0) → sumSkipNa l = 0 := by
  intro l
  induction l with
  | nil => intro _; rfl
  | cons a as ih =>
    intro h
    have htail : sumSkipNa as = 0 := ih (fun t ht => h t (by simp [ht]))
    rcases h a (by simp) with h1 | h1
    · rw [h1]
      have : sumSkipNa (none :: as) = sumSkipNa as := by
        rw [sumSkipNa, sumSkipNa, List.filterMap_cons]
        rfl
      rw [this, htail]
    · rw [h1]
      have : sumSkipNa (some 0 :: as) = 0 + sumSkipNa as := by
        rw [sumSkipNa, sumSkipNa, List.filterMap_cons]
        rfl
      rw [this, htail, add_zero]

theorem round2_zero : round2 0 = 0 := by
  norm_num [round2, roundHalfEven]

theorem mapM_terms_zero (ps : List ProductF) (oid : Int) :
    ∀ reqs : List (Int × String × String),
      (∀ req ∈ reqs, isBlank (commaToDot req.2.1) = true ∧
        (ps.filter (fun q => q.order_ID = oid ∧ q.product_ID = req.1)) ≠ []) →
      ∃ terms : List (Option ℚ),
        (reqs.mapM (fun req =>
          (parseFilled req.2.1).bind (fun f =>
            (lookupNetPrice ps oid req.1).map (fun np => omul np (some f)))))
          = some terms ∧
        ∀ t ∈ terms, t = none ∨ t = some 0 := by
  intro reqs
  induction reqs with
  | nil =>
    intro _
    exact ⟨[], rfl, by simp⟩
  | cons a as ih =>
    intro h
    obtain ⟨hblank, hlook⟩ := h a (by simp)
    have hparse : parseFilled a.2.1 = some 0 := by
      rw [parseFilled, if_pos hblank]
    have hl : ∃ np, lookupNetPrice ps oid a.1 = some np := by
      rw [lookupNetPrice]
      cases hf : ps.filter (fun q => q.order_ID = oid ∧ q.product_ID = a.1) with
      | nil => exact absurd hf hlook
      | cons q qs => exact ⟨q.net_price, rfl⟩
    obtain ⟨np, hnp⟩ := hl
    obtain ⟨terms, hterms, hall⟩ := ih (fun req hreq => h req (by simp [hreq]))
    refine ⟨omul np (some 0) :: terms, ?_, ?_⟩
    · rw [List.mapM_cons, hparse, hnp, hterms]
      rfl
    · intro t ht
      rcases List.mem_cons.mp ht with h1 | h1
      · cases np with
        | none =>
          left
          rw [h1]
          rfl
        | some x =>
          right
          rw [h1]
          show omul (some x) (some 0) = some 0
          rw [omul, mul_zero]
      · exact hall t h1

/-- C10: a member row with an empty `order_requests` mapping gets
`order_request_value = 0.0` (the empty sum), not a missing value; and a
row whose `filled_amount` entries are all blank also gets exactly 0.0
(blank is replaced by 0 before the multiplication), provided each
referenced product exists in the products table (the code raises
otherwise). -/
theorem c10_empty_and_blank_requests_zero (ps : List ProductF) (r : MemberRaw) :
    (r.order_requests = [] → orderRequestValue ps r = some 0) ∧
    ((∀ req ∈ r.order_requests, isBlank (commaToDot req.2.1) = true ∧
        (ps.filter (fun q => q.order_ID = r.order_ID ∧ q.product_ID = req.1)) ≠ []) →
      orderRequestValue ps r = some 0) := by
  constructor
  · intro h
    rw [orderRequestValue, h]
    show some (round2 (sumSkipNa [])) = some 0
    rw [show sumSkipNa [] = 0 from rfl, round2_zero]
  · intro h
    obtain ⟨terms, hterms, hall⟩ := mapM_terms_zero ps r.order_ID r.order_requests h
    rw [orderRequestValue, hterms]
    show some (round2 (sumSkipNa terms)) = some 0
    rw [sumSkipNa_zero terms hall, round2_zero]

/-! ### Concrete witnesses instantiating the theorems. -/

theorem c1_witness :
    retentionMatrix id (dropCompany [⟨1, 5, 0⟩]) 5 0 = some 1 :=
  c1_retention_first_column_one id monotone_id ("M") [⟨1, 5, 0⟩] _ _ _ rfl 5
    (by decide)

theorem c2_witness :
    retentionMatrix id (dropCompany [⟨1, 5, 0⟩]) 5 1 = none ∨
      ∃ q : ℚ, retentionMatrix id (dropCompany [⟨1, 5, 0⟩]) 5 1 = some q ∧
        0 ≤ q ∧ q ≤ 1 :=
  c2_retention_cells_unit_interval id monotone_id ("M") [⟨1, 5, 0⟩] _ _ _ rfl 5 1

theorem c3_witness :
    cohort_main ("M") id [⟨46, 3, 0⟩, ⟨1, 5, 0⟩] =
      cohort_main ("M") id (dropCompany [⟨46, 3, 0⟩, ⟨1, 5, 0⟩]) ∧
    ∀ row ∈ make_table id ("M") [⟨46, 3, 0⟩, ⟨1, 5, 0⟩], row.member_ID ≠ 46 :=
  c3_member46_excluded id ("M") [⟨46, 3, 0⟩, ⟨1, 5, 0⟩]

theorem c4_witness :
    (⟨1, 0, 1, 10⟩ : RfmRow).recency = Int.floor
      (((maxDate ((dropCompany [⟨1, 5, 10⟩]).map (fun r => r.delivery_date)) : ℚ)
        - (id (maxDate (memberDates (dropCompany [⟨1, 5, 10⟩])
            (⟨1, 0, 1, 10⟩ : RfmRow).member_ID)) : ℚ)) / periodLen ("W")) := by
  have hT : make_table id ("W") [⟨1, 5, 10⟩] = [⟨1, 0, 1, 10⟩] := by
    norm_num [make_table, dropCompany, periodsOf, periodSum, memberDates,
      maxDate, minDate, periodLen]
  exact c4_recency_floor_division id monotone_id ("W") (Or.inl rfl) [⟨1, 5, 10⟩]
    ⟨1, 0, 1, 10⟩ (by rw [hT]; exact List.mem_singleton.mpr rfl)

theorem c5_witness :
    List.Forall₂ (fun (a : RawProduct) (pr : ProductCells) =>
      (pr.tax_rate = Cell.na ∨ ∃ q : ℚ, pr.tax_rate = Cell.num q) ∧
      (pr.net_price = Cell.na ∨ ∃ q : ℚ, pr.net_price = Cell.num q) ∧
      (pr.bundle_size = Cell.na ∨ ∃ q : ℚ, pr.bundle_size = Cell.num q) ∧
      (pr.amount_ordered = Cell.na ∨ ∃ q : ℚ, pr.amount_ordered = Cell.num q) ∧
      (pr.bundles_ordered = Cell.na ∨ ∃ q : ℚ, pr.bundles_ordered = Cell.num q) ∧
      pr.supplier_code = procStr a.supplier_code)
      [⟨1, 2, ("1"), ("2"), ("3"), ("46,00"), ("5"), ("6")⟩]
      [⟨1, 2, Cell.num 1, Cell.num 2, Cell.num 3, Cell.str ("46.00"),
        Cell.num 5, Cell.num 6⟩] :=
  c5_amended_supplier_code_not_cast _ _ rfl

theorem c6_witness :
    rScore ("W") 5 = some 4 ∧ freqsPerYear ("W") = 52 ∧ freqsPerYear ("M") = 12 := by
  obtain ⟨h1, h2, h3⟩ := c6_recency_fixed_bins ("W") (Or.inl rfl) 5 (by norm_num)
  refine ⟨?_, h2, h3⟩
  rw [h1, h2]
  norm_num

theorem c8_witness :
    cohort_main ("X") id [] = none ∧
    rfm_main ("X") id [] = RfmResult.invalidFreq :=
  ⟨(c8_invalid_freq_returns_nothing ("X") id []).1 (by decide) (by decide),
   (c8_invalid_freq_returns_nothing ("X") id []).2 (by decide) (by decide)⟩

theorem c9_witness :
    (⟨1, some 6⟩ : OrderTotal).total_order_value = some (round2 (sumSkipNa
      (((features_main [1] [⟨1, 3, some 2, some 3⟩]).2.filter
        (fun q => q.order_ID = (⟨1, some 6⟩ : OrderTotal).order_ID)).map
        (fun q => q.net_total_price)))) := by
  refine ((c9_amended_order_totals [1] [⟨1, 3, some 2, some 3⟩]).2
    ⟨1, some 6⟩ ?_).1 ?_
  · norm_num [features_main, totalOrderValue, addNetTotal, omul, sumSkipNa,
      round2, roundHalfEven, List.filterMap_cons, List.filterMap_nil,
      List.sum_cons, List.sum_nil]
  · decide

theorem c10_witness :
    orderRequestValue [] ⟨7, 1, []⟩ = some 0 ∧
    orderRequestValue [⟨⟨1, 3, some 2, some 3⟩, some 6⟩]
      ⟨7, 1, [(3, (" "), ("2"))]⟩ = some 0 := by
  constructor
  · exact (c10_empty_and_blank_requests_zero [] ⟨7, 1, []⟩).1 rfl
  · exact (c10_empty_and_blank_requests_zero [⟨⟨1, 3, some 2, some 3⟩, some 6⟩]
      ⟨7, 1, [(3, (" "), ("2"))]⟩).2 (by decide)

theorem rfmEx_table : make_table id ("W")
    [⟨1, 4, 10⟩, ⟨2, 3, 20⟩, ⟨2, 4, 20⟩, ⟨3, 2, 30⟩, ⟨3, 3, 30⟩, ⟨3, 4, 30⟩,
     ⟨4, 1, 40⟩, ⟨4, 2, 40⟩, ⟨4, 3, 40⟩, ⟨4, 4, 40⟩]
    = [⟨1, 0, 1, 10⟩, ⟨2, 0, 2, 20⟩, ⟨3, 0, 3, 30⟩, ⟨4, 0, 4, 40⟩] := by
  norm_num [make_table, dropCompany, periodsOf, periodSum, memberDates,
    maxDate, minDate, periodLen]

theorem rfmEx_sortF : sortQ [(1 : ℚ), 2, 3, 4] = [1, 2, 3, 4] := by
  norm_num [sortQ, List.insertionSort, List.orderedInsert]

theorem rfmEx_sortM : sortQ [(10 : ℚ), 20, 30, 40] = [10, 20, 30, 40] := by
  norm_num [sortQ, List.insertionSort, List.orderedInsert]

theorem rfmEx_edgesF : qcutEdges [(1 : ℚ), 2, 3, 4]
    = [1, 7 / 4, 5 / 2, 13 / 4, 4] := by
  rw [qcutEdges, rfmEx_sortF]
  norm_num [qtile, List.getD_cons_zero, List.getD_cons_succ,
    show Int.toNat 2 = 2 from rfl, show Int.toNat 3 = 3 from rfl]

theorem rfmEx_edgesM : qcutEdges [(10 : ℚ), 20, 30, 40]
    = [10, 35 / 2, 25, 65 / 2, 40] := by
  rw [qcutEdges, rfmEx_sortM]
  norm_num [qtile, List.getD_cons_zero, List.getD_cons_succ,
    show Int.toNat 2 = 2 from rfl, show Int.toNat 3 = 3 from rfl]

theorem rfmEx_qlF1 : qLabel [(1 : ℚ), 2, 3, 4] 1 = some 1 := by
  rw [qLabel, rfmEx_edgesF]
  simp only [List.map_cons, List.map_nil]
  rw [cutIdx_cons]
  norm_num [cutGo, ← WithTop.coe_ofNat, WithTop.coe_lt_coe, WithTop.coe_le_coe]

theorem rfmEx_qlF2 : qLabel [(1 : ℚ), 2, 3, 4] 2 = some 2 := by
  rw [qLabel, rfmEx_edgesF]
  simp only [List.map_cons, List.map_nil]
  rw [cutIdx_cons]
  norm_num [cutGo, ← WithTop.coe_ofNat, WithTop.coe_lt_coe, WithTop.coe_le_coe]

theorem rfmEx_qlF3 : qLabel [(1 : ℚ), 2, 3, 4] 3 = some 3 := by
  rw [qLabel, rfmEx_edgesF]
  simp only [List.map_cons, List.map_nil]
  rw [cutIdx_cons]
  norm_num [cutGo, ← WithTop.coe_ofNat, WithTop.coe_lt_coe, WithTop.coe_le_coe]

theorem rfmEx_qlF4 : qLabel [(1 : ℚ), 2, 3, 4] 4 = some 4 := by
  rw [qLabel, rfmEx_edgesF]
  simp only [List.map_cons, List.map_nil]
  rw [cutIdx_cons]
  norm_num [cutGo, ← WithTop.coe_ofNat, WithTop.coe_lt_coe, WithTop.coe_le_coe]

theorem rfmEx_qlM1 : qLabel [(10 : ℚ), 20, 30, 40] 10 = some 1 := by
  rw [qLabel, rfmEx_edgesM]
  simp only [List.map_cons, List.map_nil]
  rw [cutIdx_cons]
  norm_num [cutGo, ← WithTop.coe_ofNat, WithTop.coe_lt_coe, WithTop.coe_le_coe]

theorem rfmEx_qlM2 : qLabel [(10 : ℚ), 20, 30, 40] 20 = some 2 := by
  rw [qLabel, rfmEx_edgesM]
  simp only [List.map_cons, List.map_nil]
  rw [cutIdx_cons]
  norm_num [cutGo, ← WithTop.coe_ofNat, WithTop.coe_lt_coe, WithTop.coe_le_coe]

theorem rfmEx_qlM3 : qLabel [(10 : ℚ), 20, 30, 40] 30 = some 3 := by
  rw [qLabel, rfmEx_edgesM]
  simp only [List.map_cons, List.map_nil]
  rw [cutIdx_cons]
  norm_num [cutGo, ← WithTop.coe_ofNat, WithTop.coe_lt_coe, WithTop.coe_le_coe]

theorem rfmEx_qlM4 : qLabel [(10 : ℚ), 20, 30, 40] 40 = some 4 := by
  rw [qLabel, rfmEx_edgesM]
  simp only [List.map_cons, List.map_nil]
  rw [cutIdx_cons]
  norm_num [cutGo, ← WithTop.coe_ofNat, WithTop.coe_lt_coe, WithTop.coe_le_coe]

theorem rfmEx_r0 : rScore ("W") 0 = some 4 := by
  rw [rScore_eval ("W") (Or.inl rfl) 0 le_rfl,
    show freqsPerYear ("W") = 52 from rfl]
  norm_num

theorem rfmEx_mapF :
    ([⟨1, 0, 1, 10⟩, ⟨2, 0, 2, 20⟩, ⟨3, 0, 3, 30⟩, ⟨4, 0, 4, 40⟩]
      : List RfmRow).map (fun x => (x.frequency : ℚ)) = [1, 2, 3, 4] := by
  norm_num

theorem rfmEx_mapM :
    ([⟨1, 0, 1, 10⟩, ⟨2, 0, 2, 20⟩, ⟨3, 0, 3, 30⟩, ⟨4, 0, 4, 40⟩]
      : List RfmRow).map (fun x => x.monetary_value) = [10, 20, 30, 40] := by
  norm_num

theorem rfmEx_dedupF : ([1, 7 / 4, 5 / 2, 13 / 4, (4 : ℚ)]).dedup.length = 5 := by
  norm_num [List.dedup_cons_of_not_mem]

theorem rfmEx_dedupM : ([10, 35 / 2, 25, 65 / 2, (40 : ℚ)]).dedup.length = 5 := by
  norm_num [List.dedup_cons_of_not_mem]

theorem rfmEx_addScore : add_score ("W")
    [⟨1, 0, 1, 10⟩, ⟨2, 0, 2, 20⟩, ⟨3, 0, 3, 30⟩, ⟨4, 0, 4, 40⟩]
    = some [⟨⟨1, 0, 1, 10⟩, some 4, some 1, some 1, ("411")⟩,
            ⟨⟨2, 0, 2, 20⟩, some 4, some 2, some 2, ("422")⟩,
            ⟨⟨3, 0, 3, 30⟩, some 4, some 3, some 3, ("433")⟩,
            ⟨⟨4, 0, 4, 40⟩, some 4, some 4, some 4, ("444")⟩] := by
  rw [add_score, if_pos]
  · have hs1 : scoreRow ("W")
        [⟨1, 0, 1, 10⟩, ⟨2, 0, 2, 20⟩, ⟨3, 0, 3, 30⟩, ⟨4, 0, 4, 40⟩] ⟨1, 0, 1, 10⟩
        = ⟨⟨1, 0, 1, 10⟩, some 4, some 1, some 1, ("411")⟩ := by
      rw [scoreRow]
      norm_num [rfmEx_mapF, rfmEx_mapM, rfmEx_r0, rfmEx_qlF1, rfmEx_qlM1, scoreStr]
      decide
    have hs2 : scoreRow ("W")
        [⟨1, 0, 1, 10⟩, ⟨2, 0, 2, 20⟩, ⟨3, 0, 3, 30⟩, ⟨4, 0, 4, 40⟩] ⟨2, 0, 2, 20⟩
        = ⟨⟨2, 0, 2, 20⟩, some 4, some 2, some 2, ("422")⟩ := by
      rw [scoreRow]
      norm_num [rfmEx_mapF, rfmEx_mapM, rfmEx_r0, rfmEx_qlF2, rfmEx_qlM2, scoreStr]
      decide
    have hs3 : scoreRow ("W")
        [⟨1, 0, 1, 10⟩, ⟨2, 0, 2, 20⟩, ⟨3, 0, 3, 30⟩, ⟨4, 0, 4, 40⟩] ⟨3, 0, 3, 30⟩
        = ⟨⟨3, 0, 3, 30⟩, some 4, some 3, some 3, ("433")⟩ := by
      rw [scoreRow]
      norm_num [rfmEx_mapF, rfmEx_mapM, rfmEx_r0, rfmEx_qlF3, rfmEx_qlM3, scoreStr]
      decide
    have hs4 : scoreRow ("W")
        [⟨1, 0, 1, 10⟩, ⟨2, 0, 2, 20⟩, ⟨3, 0, 3, 30⟩, ⟨4, 0, 4, 40⟩] ⟨4, 0, 4, 40⟩
        = ⟨⟨4, 0, 4, 40⟩, some 4, some 4, some 4, ("444")⟩ := by
      rw [scoreRow]
      norm_num [rfmEx_mapF, rfmEx_mapM, rfmEx_r0, rfmEx_qlF4, rfmEx_qlM4, scoreStr]
      decide
    simp only [List.map_cons, List.map_nil, hs1, hs2, hs3, hs4]
  · rw [rfmEx_mapF, rfmEx_mapM, rfmEx_edgesF, rfmEx_edgesM]
    exact ⟨rfmEx_dedupF, rfmEx_dedupM⟩

theorem c7_witness :
    1 ≤ (⟨⟨1, 0, 1, 10⟩, some 4, some 1, some 1, ("411")⟩ : ScoredRow).frequency ∧
    0 ≤ (⟨⟨1, 0, 1, 10⟩, some 4, some 1, some 1, ("411")⟩ : ScoredRow).recency ∧
    (⟨⟨1, 0, 1, 10⟩, some 4, some 1, some 1, ("411")⟩ : ScoredRow).rfm_score.length
      = 3 ∧
    ∀ ch ∈ (⟨⟨1, 0, 1, 10⟩, some 4, some 1, some 1,
        ("411")⟩ : ScoredRow).rfm_score.data,
      ch ∈ (['1', '2', '3', '4'] : List Char) := by
  have hmain : rfm_main ("W") id
      [⟨1, 4, 10⟩, ⟨2, 3, 20⟩, ⟨2, 4, 20⟩, ⟨3, 2, 30⟩, ⟨3, 3, 30⟩, ⟨3, 4, 30⟩,
       ⟨4, 1, 40⟩, ⟨4, 2, 40⟩, ⟨4, 3, 40⟩, ⟨4, 4, 40⟩]
      = RfmResult.ok [⟨⟨1, 0, 1, 10⟩, some 4, some 1, some 1, ("411")⟩,
          ⟨⟨2, 0, 2, 20⟩, some 4, some 2, some 2, ("422")⟩,
          ⟨⟨3, 0, 3, 30⟩, some 4, some 3, some 3, ("433")⟩,
          ⟨⟨4, 0, 4, 40⟩, some 4, some 4, some 4, ("444")⟩] := by
    rw [rfm_main, if_pos (Or.inl rfl), rfmEx_table, rfmEx_addScore]
  exact c7_rfm_row_invariants id monotone_id (fun t => le_refl t) ("W")
    [⟨1, 4, 10⟩, ⟨2, 3, 20⟩, ⟨2, 4, 20⟩, ⟨3, 2, 30⟩, ⟨3, 3, 30⟩, ⟨3, 4, 30⟩,
     ⟨4, 1, 40⟩, ⟨4, 2, 40⟩, ⟨4, 3, 40⟩, ⟨4, 4, 40⟩]
    [⟨⟨1, 0, 1, 10⟩, some 4, some 1, some 1, ("411")⟩,
     ⟨⟨2, 0, 2, 20⟩, some 4, some 2, some 2, ("422")⟩,
     ⟨⟨3, 0, 3, 30⟩, some 4, some 3, some 3, ("433")⟩,
     ⟨⟨4, 0, 4, 40⟩, some 4, some 4, some 4, ("444")⟩] hmain
    ⟨⟨1, 0, 1, 10⟩, some 4, some 1, some 1, ("411")⟩ (by decide)

end Scoop
